import Mathlib

/-!
# krew: installation engine and environment helpers

A shallow embedding of `pkg/installation/install.go` (`downloadAndMove`, `Install`,
`Remove`) together with the environment helpers exercised by
`pkg/environment/environment_test.go` (`IsPlugin`, `GetExecutedVersion`).

Stateful code is written in explicit state-passing style: every operation takes the
file system it starts from and returns an `Outcome` holding the returned error, the
file system it leaves behind and the list of calls it made to the operating system
and to its collaborators, in program order.
-/

namespace Krew

/-! ## Errors -/

/-- Go `error` values met in `install.go`. The three package variables are compared by
identity in Go, so each is a constructor of its own; `fmt.Errorf` results keep the format
string and its arguments instead of a rendered message. -/
inductive Error where
  /-- The package variable `IsAlreadyInstalledErr`. -/
  | IsAlreadyInstalledErr
  /-- The package variable `IsNotInstalledErr`. -/
  | IsNotInstalledErr
  /-- The package variable `IsAlreadyUpgradedErr`. -/
  | IsAlreadyUpgradedErr
  /-- An error value created outside `install.go` (operating system, download package). -/
  | New (msg : String)
  /-- Result of `fmt.Errorf(format, args...)` with string arguments only. -/
  | Errorf (format : String) (args : List String)
  /-- Result of `fmt.Errorf(format, args..., err)` whose last verb renders `err`. -/
  | Wrapf (format : String) (args : List String) (err : Error)
  deriving DecidableEq, Repr

/-! ## Constants of `install.go` -/

def headVersion : String := "HEAD"

def headOldVersion : String := "HEAD-OLD"

def krewPluginName : String := "krew"

/-! ## Data model -/

/-- Modelled from the spec: `index.FileOperation` (§3), a source path and a destination
path applied after the download. -/
structure FileOperation where
  From : String
  To : String
  deriving DecidableEq, Repr

/-- Modelled from the spec: one platform variant of a manifest (§3 `PlatformSpec`). -/
structure Platform where
  OS : List String
  Arch : List String
  URI : String
  Sha256 : String
  Files : List FileOperation
  deriving DecidableEq, Repr

/-- Modelled from the spec: `index.Plugin` (§3 `PluginManifest`); `install.go` reads `Name`,
`search.go` reads the short description. -/
structure Plugin where
  Name : String
  ShortDescription : String
  Platforms : List Platform
  deriving DecidableEq, Repr

/-- The struct `environment.KrewPaths` as built in `environment_test.go`. -/
structure KrewPaths where
  Base : String
  Index : String
  Install : String
  Download : String
  deriving DecidableEq, Repr

/-! ## File system -/

/-- What a path names. -/
inductive FileKind where
  | dir
  | file
  deriving DecidableEq, Repr

/-- State of the file system: the entry found at each (cleaned) path, if any. Creation has
no permission or input/output faults; those of removal are given by `RemoveFault`. -/
abbrev FS := String → Option FileKind

/-- The file system `fs` with `path` set to `k`. -/
def FS.set (fs : FS) (path : String) (k : FileKind) : FS :=
  fun q => if q = path then some k else fs q

/-- Unix path separator. -/
def Separator : Char := '/'

/-- A removal the operating system does not complete (permissions, busy entries,
input/output faults): the error it reports, and the entries at or beneath the path that it
leaves in place. -/
structure RemoveFault where
  err : Error
  kept : String → Bool

/-- Go `endsWithDot`: the path is `.` or its last element is `.`. -/
def endsWithDot (path : String) : Bool :=
  path == "." || (path.data.reverse.take 2 == ['.', Separator])

/-- Tells whether `path` is `root` itself or lies beneath it. -/
def isUnder (root path : String) : Bool :=
  path == root ||
    (if root.data.getLast? = some Separator then root.data
     else root.data ++ [Separator]).isPrefixOf path.data

/-- Proper ancestors of a path, nearest first: each non-empty strict beginning of the path
that stops right before a separator and does not itself end in one. -/
def ancestors (path : String) : List String :=
  ((List.range path.data.length).reverse.filter (fun k =>
      0 < k && path.data.get? k == some Separator
        && path.data.get? (k - 1) != some Separator)).map
    (fun k => String.mk (path.data.take k))

namespace os

/-- Go `os.Stat`: the empty path names nothing. -/
def Stat (fs : FS) (path : String) : Option FileKind :=
  if path = "" then none else fs path

/-- Go `os.Mkdir`: creates one directory; fails when the path is empty or taken, or when
its parent is not a directory. A path without a parent component sits in the root or the
working directory, which exist. -/
def Mkdir (fs : FS) (path : String) : FS × Option Error :=
  if path = "" then (fs, some (.New "mkdir: no such file or directory"))
  else
    match fs path with
    | some _ => (fs, some (.New "mkdir: file exists"))
    | none =>
      match (ancestors path).head? with
      | none => (fs.set path .dir, none)
      | some parent =>
        match Stat fs parent with
        | some .dir => (fs.set path .dir, none)
        | some .file => (fs, some (.New "mkdir: not a directory"))
        | none => (fs, some (.New "mkdir: no such file or directory"))

/-- Recursion of Go `os.MkdirAll` along the chain `path :: parent :: grandparent :: ...`:
fast path on an existing entry, otherwise the parent first and then `Mkdir`, with the
double check that the directory is there when `Mkdir` fails. -/
def mkdirAllChain (fs : FS) : List String → FS × Option Error
  | [] => (fs, none)
  | path :: parents =>
    match Stat fs path with
    | some .dir => (fs, none)
    | some .file => (fs, some (.New "mkdir: not a directory"))
    | none =>
      match mkdirAllChain fs parents with
      | (fs1, some err) => (fs1, some err)
      | (fs1, none) =>
        match Mkdir fs1 path with
        | (fs2, none) => (fs2, none)
        | (fs2, some err) =>
          match Stat fs2 path with
          | some .dir => (fs2, none)
          | _ => (fs2, some err)

/-- Go `os.MkdirAll`: creates `path` and any missing parents; does nothing when `path` is
already a directory. -/
def MkdirAll (fs : FS) (path : String) : FS × Option Error :=
  mkdirAllChain fs (path :: ancestors path)

/-- Go `os.RemoveAll`: removes `path` and everything beneath it; a missing path (the empty
path included) is not an error. A path that is or ends in `.` is refused with `EINVAL` and
nothing is removed. When the operating system faults (`fault` tells so), the call removes
what it can, leaves the kept entries and returns the error; entries outside the subtree of
`path` are never touched. -/
def RemoveAll (fault : FS → String → Option RemoveFault) (fs : FS) (path : String) :
    FS × Option Error :=
  if path = "" then (fs, none)
  else if endsWithDot path then (fs, some (.New "RemoveAll: invalid argument"))
  else
    match fault fs path with
    | some f => (fun q => if isUnder path q && !f.kept q then none else fs q, some f.err)
    | none => (fun q => if isUnder path q then none else fs q, none)

end os

namespace filepath

/-- Splits a path at every separator. -/
def splitSep : List Char → List (List Char)
  | [] => [[]]
  | c :: cs =>
    if c = Separator then [] :: splitSep cs
    else
      match splitSep cs with
      | [] => [[c]]
      | s :: ss => (c :: s) :: ss

/-- Lexical processing of Go `filepath.Clean` on path elements; `acc` holds the kept
elements, last first. -/
def cleanSegs (rooted : Bool) : List (List Char) → List (List Char) → List (List Char)
  | acc, [] => acc.reverse
  | acc, s :: ss =>
    if s = [] ∨ s = ['.'] then cleanSegs rooted acc ss
    else if s = ['.', '.'] then
      match acc with
      | a :: acc1 =>
        if a = ['.', '.'] then cleanSegs rooted (s :: acc) ss else cleanSegs rooted acc1 ss
      | [] => if rooted then cleanSegs rooted [] ss else cleanSegs rooted [s] ss
    else cleanSegs rooted (s :: acc) ss

/-- Joins path elements with the separator. -/
def joinSep : List (List Char) → List Char
  | [] => []
  | [s] => s
  | s :: t :: ss => s ++ Separator :: joinSep (t :: ss)

/-- Go `filepath.Clean` (Unix). -/
def Clean (path : String) : String :=
  if path = "" then "."
  else
    let rooted := path.data.head? = some Separator
    let body := joinSep (cleanSegs rooted [] (splitSep path.data))
    if rooted then String.mk (Separator :: body)
    else if body = [] then "."
    else String.mk body

/-- Go `filepath.Join`: leading empty elements are ignored, the rest is joined with the
separator and cleaned; the result is empty when every element is. -/
def Join (elem : List String) : String :=
  match elem.dropWhile (fun e => e = "") with
  | [] => ""
  | es => Clean (String.mk (joinSep (es.map String.data)))

end filepath

/-! ## Collaborators of `install.go` -/

/-- A call made by the installation engine, with its arguments. -/
inductive Call where
  | findInstalledPluginVersion (installPath pluginName : String)
  | getDownloadTarget (plugin : Plugin) (forceHEAD : Bool)
  | MkdirAll (path : String)
  | RemoveAll (path : String)
  | GetInsecure (uri dir : String)
  | GetWithSha256 (uri dir sha256 : String)
  | moveToInstallAtomic (downloadPath installPath version : String) (fos : List FileOperation)
  deriving DecidableEq, Repr

/-- Functions called by `install.go` whose bodies live in other files: the installed-version
lookup (reads the file system), the download-target resolution (reads the manifest), the
two fetchers of package `download` and the promotion into the install tree. Those that
write return the file system they leave. The last field tells when the operating system
faults on a removal. -/
structure Collaborators where
  findInstalledPluginVersion : FS → String → String → String × Bool × Option Error
  getDownloadTarget : Plugin → Bool → String × String × List FileOperation × Option Error
  GetInsecure : FS → String → String → FS × Option Error
  GetWithSha256 : FS → String → String → String → FS × Option Error
  moveToInstallAtomic : FS → String → String → String → List FileOperation → FS × Option Error
  removeFault : FS → String → Option RemoveFault

/-- What a run of an operation leaves: the returned error (`none` for `nil`), the file
system, and the calls made, oldest first; `deferredErr` is the result of a deferred call
that the function drops (`none` when it returned `nil` or was not registered). -/
structure Outcome where
  err : Option Error
  fs : FS
  calls : List Call
  deferredErr : Option Error := none

/-! ## `install.go` -/

/-- The fetch step of `downloadAndMove` (lines 47-53): the insecure fetch for the `HEAD`
version, the verified fetch with the version as checksum otherwise. Returns the call made
along with its result. -/
def fetchStep (c : Collaborators) (version uri downloadPath : String) (fs : FS) :
    Call × FS × Option Error :=
  if version = headVersion then
    (.GetInsecure uri downloadPath, c.GetInsecure fs uri downloadPath)
  else
    (.GetWithSha256 uri downloadPath version, c.GetWithSha256 fs uri downloadPath version)

/-- The function `downloadAndMove`. The deferred `os.RemoveAll(downloadPath)` is registered
once `os.MkdirAll` has succeeded and runs on each later return; its result is dropped, and
kept aside in `deferredErr`. -/
def downloadAndMove (c : Collaborators) (version uri : String) (fos : List FileOperation)
    (downloadPath installPath : String) (fs : FS) : Outcome :=
  match os.MkdirAll fs downloadPath with
  | (fs1, some err) =>
    { err := some (.Wrapf "could not create download path %q, err: %v" [downloadPath] err)
      fs := fs1
      calls := [.MkdirAll downloadPath] }
  | (fs1, none) =>
    match fetchStep c version uri downloadPath fs1 with
    | (fetch, fs2, some err) =>
      { err := some err
        fs := (os.RemoveAll c.removeFault fs2 downloadPath).1
        calls := [.MkdirAll downloadPath, fetch, .RemoveAll downloadPath]
        deferredErr := (os.RemoveAll c.removeFault fs2 downloadPath).2 }
    | (fetch, fs2, none) =>
      match c.moveToInstallAtomic fs2 downloadPath installPath version fos with
      | (fs3, ret) =>
        { err := ret
          fs := (os.RemoveAll c.removeFault fs3 downloadPath).1
          calls := [.MkdirAll downloadPath, fetch,
            .moveToInstallAtomic downloadPath installPath version fos,
            .RemoveAll downloadPath]
          deferredErr := (os.RemoveAll c.removeFault fs3 downloadPath).2 }

/-- The function `Install`. -/
def Install (c : Collaborators) (p : KrewPaths) (plugin : Plugin) (forceHEAD : Bool)
    (fs : FS) : Outcome :=
  match c.findInstalledPluginVersion fs p.Install plugin.Name with
  | (_, _, some err) =>
    { err := some err, fs := fs, calls := [.findInstalledPluginVersion p.Install plugin.Name] }
  | (_, true, none) =>
    { err := some .IsAlreadyInstalledErr, fs := fs,
      calls := [.findInstalledPluginVersion p.Install plugin.Name] }
  | (_, false, none) =>
    match c.getDownloadTarget plugin forceHEAD with
    | (_, _, _, some err) =>
      { err := some err, fs := fs,
        calls := [.findInstalledPluginVersion p.Install plugin.Name,
          .getDownloadTarget plugin forceHEAD] }
    | (version, uri, fos, none) =>
      let r := downloadAndMove c version uri fos
        (filepath.Join [p.Download, plugin.Name]) (filepath.Join [p.Install, plugin.Name]) fs
      { r with
        calls := [.findInstalledPluginVersion p.Install plugin.Name,
          .getDownloadTarget plugin forceHEAD] ++ r.calls }

/-- The function `Remove`. -/
def Remove (c : Collaborators) (p : KrewPaths) (name : String) (fs : FS) : Outcome :=
  if name = krewPluginName then
    { err := some (.Errorf "removing krew is not allowed through krew, see docs for help" [])
      fs := fs, calls := [] }
  else
    match c.findInstalledPluginVersion fs p.Install name with
    | (_, _, some err) =>
      { err := some (.Wrapf "can't remove plugin, err: %v" [] err), fs := fs,
        calls := [.findInstalledPluginVersion p.Install name] }
    | (_, false, none) =>
      { err := some .IsNotInstalledErr, fs := fs,
        calls := [.findInstalledPluginVersion p.Install name] }
    | (_, true, none) =>
      match os.RemoveAll c.removeFault fs (filepath.Join [p.Install, name]) with
      | (fs1, ret) =>
        { err := ret, fs := fs1,
          calls := [.findInstalledPluginVersion p.Install name,
            .RemoveAll (filepath.Join [p.Install, name])] }

/-! ## Package `environment` -/

/-- Name of the variable kubectl sets when it runs a plugin. -/
def pluginMarker : String := "KUBECTL_PLUGINS_DESCRIPTOR_NAME"

/-- Cuts an assignment at its first `=`: the name, and the value when there is a `=`. -/
def cutAssignment : List Char → List Char × Option (List Char)
  | [] => ([], none)
  | c :: cs =>
    if c = '=' then ([], some cs)
    else ((c :: (cutAssignment cs).1), (cutAssignment cs).2)

/-- Modelled from the spec: `environment.parseEnvs`, absent from the sources and known from
`Test_parseEnvs`. Turns `NAME=value` strings into name/value bindings, cutting at the
first `=` (so `FOO=A=B` binds `FOO` to `A=B`, and `TERM=` binds `TERM` to the empty
string). -/
def parseEnvs (environ : List String) : List (String × String) :=
  environ.map fun pair =>
    (String.mk (cutAssignment pair.data).1, String.mk ((cutAssignment pair.data).2.getD []))

/-- Modelled from the spec: `environment.IsPlugin`, absent from the sources and known from
`TestIsPlugin`. Plugin mode is detected when the marker variable is bound at all (§4.1:
any value, the empty string included, counts as present). -/
def IsPlugin (environ : List String) : Bool :=
  ((parseEnvs environ).map Prod.fst).contains pluginMarker

/-- Tells whether a path starts at the root. -/
def isAbs (path : String) : Bool :=
  path.data.head? = some Separator

/-- Elements of a normalised path: the pieces of the cleaned path between separators,
without the empty ones and without the `.` that stands for the empty path. -/
def segments (path : String) : List String :=
  ((filepath.splitSep (filepath.Clean path).data).filter
    (fun s => s ≠ [] ∧ s ≠ ['.'])).map String.mk

/-- Modelled from the spec: `environment.GetExecutedVersion`, absent from the sources and
known from `TestGetExecutedVersion` and its call in `cmd.go`. Given the install directory
and the resolved path of the running executable, it matches the normalised path against
`install/krew/<version>/...` by its leading elements (§4.1) and returns the version and
`true` when the executable lies beneath such a version directory, the empty string and
`false` otherwise; it returns no error on resolved paths. -/
def GetExecutedVersion (installPath executionPath : String) : String × Bool × Option Error :=
  let pluginsPath := segments installPath ++ [krewPluginName]
  let path := segments executionPath
  if isAbs installPath = isAbs executionPath ∧ pluginsPath.isPrefixOf path = true then
    match path.drop pluginsPath.length with
    | version :: _ :: _ => (version, true, none)
    | _ => ("", false, none)
  else ("", false, none)

/-! ## `search.go` -/

/-- A Go string: its sequence of bytes. `len` is `List.length`, and slicing cuts between
bytes, wherever a character encoded on several bytes may lie. -/
abbrev GoString := List (Fin 256)

/-- Bytes of a text, in UTF-8. -/
def utf8Bytes (s : String) : GoString :=
  s.toUTF8.data.toList.map fun b => b.val

/-- The string constant `"..."`: three bytes `0x2E`. -/
def ellipsis : GoString := [46, 46, 46]

/-- The function `limitString` (search.go:90-95). `length` is a Go `int`; the subtraction
`length-3` is only evaluated under the guard `length > 3`, and the slice `s[:length-3]`
under `len(s) > length`, so it neither wraps nor goes out of range. -/
def limitString (s : GoString) (length : Int) : GoString :=
  if (s.length : Int) > length ∧ length > 3 then
    s.take (length - 3).toNat ++ ellipsis
  else s

/-- The description cell of a row printed by `search` (search.go:82):
`limitString(plugin.Spec.ShortDescription, 50)`. -/
def descriptionCell (plugin : Plugin) : GoString :=
  limitString (utf8Bytes plugin.ShortDescription) 50

/-! ## A sample installation, used to run the definitions -/

/-- Modelled from the spec: place of a plugin's entry in the bin directory, `base/bin/<name>`
(§6, persisted layout). -/
def binEntry (p : KrewPaths) (name : String) : String :=
  filepath.Join [p.Base, "bin", name]

/-- The paths of `TestGetExecutedVersion`. -/
def samplePaths : KrewPaths :=
  { Base := "/plugins/", Index := "/plugins/index", Install := "/plugins/store",
    Download := "/plugins/download" }

/-- A manifest with one pinned platform variant. -/
def samplePlugin : Plugin :=
  { Name := "foo", ShortDescription := "a sample plugin",
    Platforms := [{ OS := ["linux"], Arch := ["amd64"], URI := "https://example.com/foo.tgz",
                    Sha256 := "deadbeef", Files := [{ From := "foo", To := "foo" }] }] }

/-- A manifest without any platform variant: its download target cannot be resolved. -/
def orphanPlugin : Plugin :=
  { Name := "bar", ShortDescription := "no platform", Platforms := [] }

/-- Sample collaborators. The lookup finds a version directory among two candidates; the
target is the first platform variant, or `HEAD` on request; the verified fetch accepts one
checksum only; promotion creates the version directory; removals do not fault. -/
def sampleCollaborators : Collaborators where
  findInstalledPluginVersion := fun fs installPath pluginName =>
    if fs (filepath.Join [installPath, pluginName, "deadbeef"]) = some .dir then
      ("deadbeef", true, none)
    else if fs (filepath.Join [installPath, pluginName, headVersion]) = some .dir then
      (headVersion, true, none)
    else ("", false, none)
  getDownloadTarget := fun plugin forceHEAD =>
    match plugin.Platforms with
    | [] => ("", "", [], some (.New "plugin has no available platform for this host"))
    | pl :: _ => if forceHEAD then (headVersion, pl.URI, pl.Files, none)
                 else (pl.Sha256, pl.URI, pl.Files, none)
  GetInsecure := fun fs _ dir => (fs.set (filepath.Join [dir, "payload"]) .file, none)
  GetWithSha256 := fun fs _ dir sha256 =>
    if sha256 = "deadbeef" then (fs.set (filepath.Join [dir, "payload"]) .file, none)
    else (fs, some (.New "checksum does not match"))
  moveToInstallAtomic := fun fs _ installPath version _ =>
    ((fs.set installPath .dir).set (filepath.Join [installPath, version]) .dir, none)
  removeFault := fun _ _ => none

/-- Paths relative to the working directory, with the working directory itself as download
directory. -/
def dotPaths : KrewPaths :=
  { Base := ".", Index := "index", Install := "store", Download := "." }

/-- A manifest whose name is empty. -/
def namelessPlugin : Plugin :=
  { Name := "", ShortDescription := "no name",
    Platforms := [{ OS := [], Arch := [], URI := "https://example.com/x.tgz",
                    Sha256 := "deadbeef", Files := [] }] }

/-- A file system holding the working directory and nothing else. -/
def dotFS : FS := fun q => if q = "." then some .dir else none

/-- Collaborators on which the operating system refuses to remove the scratch directory of
`foo` and leaves the whole subtree in place. -/
def busyCollaborators : Collaborators :=
  { sampleCollaborators with
    removeFault := fun _ path =>
      if path = "/plugins/download/foo" then
        some { err := .New "unlinkat: device or resource busy", kept := fun _ => true }
      else none }

/-- A file system holding the four directories and nothing else. -/
def freshFS : FS := fun q =>
  if q = "/plugins" ∨ q = "/plugins/index" ∨ q = "/plugins/store" ∨ q = "/plugins/download"
  then some .dir else none

/-- A file system where `foo` is installed at version `deadbeef`, with its bin entry. -/
def installedFS : FS := fun q =>
  if q = "/plugins/store/foo" ∨ q = "/plugins/store/foo/deadbeef" ∨ q = "/plugins/bin" then
    some .dir
  else if q = "/plugins/store/foo/deadbeef/foo" ∨ q = "/plugins/bin/foo" then some .file
  else freshFS q

/-! ## Facts about the file-system model -/

theorem ancestors_length {path a : String} (h : a ∈ ancestors path) :
    a.data.length < path.data.length := by
  unfold ancestors at h
  simp only [List.mem_map, List.mem_filter, List.mem_reverse, List.mem_range] at h
  obtain ⟨k, ⟨hk, _⟩, rfl⟩ := h
  simp only [List.length_take]
  omega

theorem ancestors_ne {path a : String} (h : a ∈ ancestors path) : a ≠ path := by
  intro e
  have := ancestors_length h
  rw [e] at this
  exact Nat.lt_irrefl _ this

theorem ancestors_isPrefix {path a : String} (h : a ∈ ancestors path) :
    a.data <+: path.data := by
  unfold ancestors at h
  simp only [List.mem_map, List.mem_filter, List.mem_reverse, List.mem_range] at h
  obtain ⟨k, _, rfl⟩ := h
  exact List.take_prefix _ _

theorem isUnder_isPrefix {root path : String} (h : isUnder root path = true) :
    root.data <+: path.data := by
  unfold isUnder at h
  simp only [Bool.or_eq_true, beq_iff_eq] at h
  rcases h with h | h
  · rw [h]
  · rw [ List.isPrefixOf_iff_prefix] at h
    split at h
    · exact h
    · exact (List.prefix_append _ _).trans h

theorem isUnder_self (path : String) : isUnder path path = true := by
  simp [isUnder]

theorem Mkdir_frame (fs : FS) (path q : String) (h : q ≠ path) :
    (os.Mkdir fs path).1 q = fs q := by
  unfold os.Mkdir
  split
  · rfl
  · split
    · rfl
    · split
      · simp [FS.set, h]
      · split <;> simp [FS.set, h]

theorem mkdirAllChain_frame (chain : List String) (fs : FS) (q : String) (h : q ∉ chain) :
    (os.mkdirAllChain fs chain).1 q = fs q := by
  induction chain with
  | nil => rfl
  | cons path parents ih =>
    have hq : q ≠ path := fun e => h (e ▸ List.mem_cons_self _ _)
    have hp : q ∉ parents := fun m => h (List.mem_cons_of_mem _ m)
    have ih1 := ih hp
    have hm := Mkdir_frame (os.mkdirAllChain fs parents).1 path q hq
    unfold os.mkdirAllChain
    split
    · rfl
    · rfl
    · split
      · rename_i e; rw [e] at ih1; exact ih1
      · rename_i e
        rw [e] at ih1 hm
        simp only at ih1 hm
        split
        · rename_i e2; rw [e2] at hm; exact hm.trans ih1
        · rename_i e2
          rw [e2] at hm
          split <;> exact hm.trans ih1

theorem MkdirAll_frame (fs : FS) (path q : String) (h1 : q ≠ path) (h2 : q ∉ ancestors path) :
    (os.MkdirAll fs path).1 q = fs q := by
  apply mkdirAllChain_frame
  simp [h1, h2]

theorem MkdirAll_failed (fs : FS) (path : String) (h : (os.MkdirAll fs path).2 ≠ none) :
    os.Stat (os.MkdirAll fs path).1 path ≠ some FileKind.dir := by
  have hfr : os.Stat (os.mkdirAllChain fs (ancestors path)).1 path = os.Stat fs path := by
    unfold os.Stat
    split
    · rfl
    · exact mkdirAllChain_frame _ fs path (fun m => ancestors_ne m rfl)
  unfold os.MkdirAll os.mkdirAllChain at h ⊢
  cases hs : os.Stat fs path with
  | some k =>
    cases k
    · simp [hs] at h
    · simp [hs]
  | none =>
    simp only [hs] at h ⊢
    rw [hs] at hfr
    rcases hc : os.mkdirAllChain fs (ancestors path) with ⟨fs1, _ | err⟩
    · simp only [hc] at h hfr ⊢
      rcases hm : os.Mkdir fs1 path with ⟨fs2, _ | err2⟩
      · simp [hm] at h
      · simp only [hm] at h ⊢
        cases hs2 : os.Stat fs2 path with
        | none => simp [hs2]
        | some k =>
          cases k
          · simp [hs2] at h
          · simp [hs2]
    · simp only [hc] at h hfr ⊢
      rw [hfr]
      simp

theorem MkdirAll_empty (fs : FS) : (os.MkdirAll fs "").2 ≠ none := by
  simp [os.MkdirAll, os.mkdirAllChain, os.Stat, ancestors, os.Mkdir]

theorem RemoveAll_under (fault : FS → String → Option RemoveFault) (fs : FS)
    (path q : String) (hp : path ≠ "") (hok : (os.RemoveAll fault fs path).2 = none)
    (h : isUnder path q = true) : (os.RemoveAll fault fs path).1 q = none := by
  unfold os.RemoveAll at hok ⊢
  rw [if_neg hp] at hok ⊢
  split at hok
  · simp at hok
  · rename_i hd
    rw [if_neg hd]
    cases hf : fault fs path with
    | some f => rw [hf] at hok; simp at hok
    | none => simp [h]

theorem RemoveAll_frame (fault : FS → String → Option RemoveFault) (fs : FS)
    (path q : String) (h : isUnder path q = false) :
    (os.RemoveAll fault fs path).1 q = fs q := by
  unfold os.RemoveAll
  split
  · rfl
  · split
    · rfl
    · cases fault fs path with
      | some f => simp [h]
      | none => simp [h]

/-! ## `Install` on an installed plugin -/

/-- C1: when the installed-version lookup reports a version without error, `Install` returns
exactly `IsAlreadyInstalledErr`, leaves the file system as it was, and its only call is the
lookup: no download target is resolved, no scratch directory created, no fetch attempted. -/
theorem Install_already_installed (c : Collaborators) (p : KrewPaths) (plugin : Plugin)
    (forceHEAD : Bool) (fs : FS) (version : String)
    (h : c.findInstalledPluginVersion fs p.Install plugin.Name = (version, true, none)) :
    (Install c p plugin forceHEAD fs).err = some Error.IsAlreadyInstalledErr ∧
    (Install c p plugin forceHEAD fs).fs = fs ∧
    (Install c p plugin forceHEAD fs).calls =
      [Call.findInstalledPluginVersion p.Install plugin.Name] := by
  simp [Install, h]

theorem Install_already_installed_witness :
    sampleCollaborators.findInstalledPluginVersion installedFS samplePaths.Install
        samplePlugin.Name = ("deadbeef", true, none) ∧
    (Install sampleCollaborators samplePaths samplePlugin true installedFS).err =
      some Error.IsAlreadyInstalledErr ∧
    (Install sampleCollaborators samplePaths samplePlugin true installedFS).fs = installedFS :=
  ⟨by decide,
   (Install_already_installed sampleCollaborators samplePaths samplePlugin true installedFS
      "deadbeef" (by decide)).1,
   (Install_already_installed sampleCollaborators samplePaths samplePlugin true installedFS
      "deadbeef" (by decide)).2.1⟩

/-! ## `Remove` -/

/-- C2, as stated, fails: for the reserved name `krew` with no version installed, `Remove`
does not return `IsNotInstalledErr`. -/
theorem Remove_krew_lookup_empty_counterexample :
    ¬ ∀ (c : Collaborators) (p : KrewPaths) (n : String) (fs : FS) (v : String),
      c.findInstalledPluginVersion fs p.Install n = (v, false, none) →
      (Remove c p n fs).err = some Error.IsNotInstalledErr ∧ (Remove c p n fs).fs = fs := by
  intro h
  have h1 := (h sampleCollaborators samplePaths "krew" freshFS "" (by decide)).1
  revert h1
  decide

/-- C2 (amended): for every plugin name other than the reserved `krew`, when the lookup
reports no installed version and no error, `Remove` returns `IsNotInstalledErr`, leaves the
file system as it was, and its only call is the lookup. -/
theorem Remove_not_installed (c : Collaborators) (p : KrewPaths) (n : String) (fs : FS)
    (v : String) (hn : n ≠ krewPluginName)
    (h : c.findInstalledPluginVersion fs p.Install n = (v, false, none)) :
    (Remove c p n fs).err = some Error.IsNotInstalledErr ∧
    (Remove c p n fs).fs = fs ∧
    (Remove c p n fs).calls = [Call.findInstalledPluginVersion p.Install n] := by
  simp [Remove, hn, h]

theorem Remove_not_installed_witness :
    (Remove sampleCollaborators samplePaths "foo" freshFS).err =
      some Error.IsNotInstalledErr ∧
    (Remove sampleCollaborators samplePaths "foo" freshFS).fs = freshFS :=
  ⟨(Remove_not_installed sampleCollaborators samplePaths "foo" freshFS "" (by decide)
      (by decide)).1,
   (Remove_not_installed sampleCollaborators samplePaths "foo" freshFS "" (by decide)
      (by decide)).2.1⟩

/-- C3: `Remove` of the reserved name `krew` returns an error that is not
`IsNotInstalledErr`, whatever the file system holds; it leaves the file system as it was
and makes no call at all, neither the installed-version lookup nor a deletion. -/
theorem Remove_krew_refused (c : Collaborators) (p : KrewPaths) (fs : FS) :
    (∃ e, (Remove c p "krew" fs).err = some e ∧ e ≠ Error.IsNotInstalledErr) ∧
    (Remove c p "krew" fs).fs = fs ∧
    (Remove c p "krew" fs).calls = [] := by
  simp [Remove, krewPluginName]

/-! ## `Install` without a download target -/

/-- C8: when no version is installed and the download target cannot be resolved, `Install`
returns the resolution error and leaves the file system as it was; its calls are the lookup
and the resolution only, so no directory is created and `downloadAndMove` is not run. -/
theorem Install_no_target (c : Collaborators) (p : KrewPaths) (plugin : Plugin)
    (forceHEAD : Bool) (fs : FS) (v version uri : String) (fos : List FileOperation)
    (e : Error)
    (hfind : c.findInstalledPluginVersion fs p.Install plugin.Name = (v, false, none))
    (htarget : c.getDownloadTarget plugin forceHEAD = (version, uri, fos, some e)) :
    (Install c p plugin forceHEAD fs).err = some e ∧
    (Install c p plugin forceHEAD fs).fs = fs ∧
    (Install c p plugin forceHEAD fs).calls =
      [Call.findInstalledPluginVersion p.Install plugin.Name,
       Call.getDownloadTarget plugin forceHEAD] ∧
    (∀ path, Call.MkdirAll path ∉ (Install c p plugin forceHEAD fs).calls) := by
  simp [Install, hfind, htarget]

theorem Install_no_target_witness :
    (Install sampleCollaborators samplePaths orphanPlugin false freshFS).err =
      some (Error.New "plugin has no available platform for this host") ∧
    (Install sampleCollaborators samplePaths orphanPlugin false freshFS).fs = freshFS :=
  ⟨(Install_no_target sampleCollaborators samplePaths orphanPlugin false freshFS "" "" "" []
      (Error.New "plugin has no available platform for this host") (by decide) (by decide)).1,
   (Install_no_target sampleCollaborators samplePaths orphanPlugin false freshFS "" "" "" []
      (Error.New "plugin has no available platform for this host") (by decide) (by decide)).2.1⟩

/-! ## `downloadAndMove` -/

/-- Past the lookup and the target resolution, `Install` is `downloadAndMove` on the joined
paths, with the two calls put in front. -/
theorem Install_reaches_download (c : Collaborators) (p : KrewPaths) (plugin : Plugin)
    (forceHEAD : Bool) (fs : FS) (v version uri : String) (fos : List FileOperation)
    (hfind : c.findInstalledPluginVersion fs p.Install plugin.Name = (v, false, none))
    (htarget : c.getDownloadTarget plugin forceHEAD = (version, uri, fos, none)) :
    (Install c p plugin forceHEAD fs).err =
      (downloadAndMove c version uri fos (filepath.Join [p.Download, plugin.Name])
        (filepath.Join [p.Install, plugin.Name]) fs).err ∧
    (Install c p plugin forceHEAD fs).fs =
      (downloadAndMove c version uri fos (filepath.Join [p.Download, plugin.Name])
        (filepath.Join [p.Install, plugin.Name]) fs).fs ∧
    (Install c p plugin forceHEAD fs).calls =
      [Call.findInstalledPluginVersion p.Install plugin.Name,
       Call.getDownloadTarget plugin forceHEAD] ++
      (downloadAndMove c version uri fos (filepath.Join [p.Download, plugin.Name])
        (filepath.Join [p.Install, plugin.Name]) fs).calls := by
  simp [Install, hfind, htarget]

/-- Outcome of `downloadAndMove` when the scratch directory is created and the fetch
fails. -/
theorem downloadAndMove_fetch_failed (c : Collaborators) (version uri : String)
    (fos : List FileOperation) (dl inst : String) (fs : FS) (e : Error)
    (hmk : (os.MkdirAll fs dl).2 = none)
    (hfetch : (fetchStep c version uri dl (os.MkdirAll fs dl).1).2.2 = some e) :
    (downloadAndMove c version uri fos dl inst fs).err = some e ∧
    (downloadAndMove c version uri fos dl inst fs).fs =
      (os.RemoveAll c.removeFault (fetchStep c version uri dl (os.MkdirAll fs dl).1).2.1 dl).1 ∧
    (downloadAndMove c version uri fos dl inst fs).calls =
      [Call.MkdirAll dl, (fetchStep c version uri dl (os.MkdirAll fs dl).1).1,
       Call.RemoveAll dl] := by
  rcases hm : os.MkdirAll fs dl with ⟨fs1, _ | err⟩
  · rw [hm] at hfetch
    rcases hf : fetchStep c version uri dl fs1 with ⟨call, fs2, _ | err2⟩
    · rw [hf] at hfetch; simp at hfetch
    · rw [hf] at hfetch
      simp only [Option.some.injEq] at hfetch
      simp [downloadAndMove, hm, hf, hfetch]
  · rw [hm] at hmk; simp at hmk

/-- The fetch step makes a fetch call, never a promotion call. -/
theorem fetchStep_call (c : Collaborators) (version uri dl : String) (fs : FS) :
    (fetchStep c version uri dl fs).1 =
      (if version = headVersion then Call.GetInsecure uri dl
       else Call.GetWithSha256 uri dl version) := by
  unfold fetchStep
  split <;> rfl

/-- C4: when the scratch directory is created and the fetch step fails with `e` (the
verified fetch reporting a checksum mismatch, for one), `downloadAndMove` returns `e`
itself and makes three calls only, `MkdirAll`, the fetch and `RemoveAll` on the scratch
path: `moveToInstallAtomic` is never called. If the fetch wrote beneath the scratch path
only and neither of the scratch and install paths begins with the other, every entry at or
beneath the install path is as before. `Install`, once it reaches the download step on
these paths, returns `e` too, without a promotion call and with the same file system. -/
theorem downloadAndMove_fetch_error (c : Collaborators) (version uri : String)
    (fos : List FileOperation) (dl inst : String) (fs : FS) (e : Error)
    (hmk : (os.MkdirAll fs dl).2 = none)
    (hfetch : (fetchStep c version uri dl (os.MkdirAll fs dl).1).2.2 = some e) :
    (downloadAndMove c version uri fos dl inst fs).err = some e ∧
    (downloadAndMove c version uri fos dl inst fs).calls =
      [Call.MkdirAll dl,
       if version = headVersion then Call.GetInsecure uri dl
       else Call.GetWithSha256 uri dl version,
       Call.RemoveAll dl] ∧
    (∀ a b v f, Call.moveToInstallAtomic a b v f ∉
      (downloadAndMove c version uri fos dl inst fs).calls) ∧
    ((∀ q, isUnder dl q = false →
        (fetchStep c version uri dl (os.MkdirAll fs dl).1).2.1 q = (os.MkdirAll fs dl).1 q) →
      dl.data.isPrefixOf inst.data = false → inst.data.isPrefixOf dl.data = false →
      ∀ q, isUnder inst q = true →
        (downloadAndMove c version uri fos dl inst fs).fs q = fs q) ∧
    (∀ (p : KrewPaths) (plugin : Plugin) (forceHEAD : Bool) (v : String),
      c.findInstalledPluginVersion fs p.Install plugin.Name = (v, false, none) →
      c.getDownloadTarget plugin forceHEAD = (version, uri, fos, none) →
      filepath.Join [p.Download, plugin.Name] = dl →
      filepath.Join [p.Install, plugin.Name] = inst →
      (Install c p plugin forceHEAD fs).err = some e ∧
      (∀ a b v f, Call.moveToInstallAtomic a b v f ∉ (Install c p plugin forceHEAD fs).calls) ∧
      (Install c p plugin forceHEAD fs).fs =
        (downloadAndMove c version uri fos dl inst fs).fs) := by
  obtain ⟨herr, hfs, hcalls⟩ := downloadAndMove_fetch_failed c version uri fos dl inst fs e
    hmk hfetch
  have hnomove : ∀ a b v f, Call.moveToInstallAtomic a b v f ∉
      (downloadAndMove c version uri fos dl inst fs).calls := by
    intro a b v f
    rw [hcalls, fetchStep_call]
    split <;> simp
  refine ⟨herr, ?_, hnomove, ?_, ?_⟩
  · rw [hcalls, fetchStep_call]
  · intro hframe h1 h2 q hq
    have hqi := isUnder_isPrefix hq
    have hnd : isUnder dl q = false := by
      cases hu : isUnder dl q with
      | false => rfl
      | true =>
        have hqd := isUnder_isPrefix hu
        rcases List.prefix_or_prefix_of_prefix hqd hqi with h | h
        · rw [← List.isPrefixOf_iff_prefix] at h; rw [h] at h1; cases h1
        · rw [← List.isPrefixOf_iff_prefix] at h; rw [h] at h2; cases h2
    have hnp : ¬ q.data <+: dl.data := by
      intro h
      have h3 := hqi.trans h
      rw [← List.isPrefixOf_iff_prefix] at h3
      rw [h3] at h2
      cases h2
    rw [hfs, RemoveAll_frame _ _ _ _ hnd, hframe q hnd]
    apply MkdirAll_frame
    · intro e1; exact hnp (e1 ▸ List.prefix_refl _)
    · intro m; exact hnp (ancestors_isPrefix m)
  · intro p plugin forceHEAD v hfind htarget hdl hinst
    obtain ⟨h1, h2, h3⟩ := Install_reaches_download c p plugin forceHEAD fs v version uri fos
      hfind htarget
    rw [hdl, hinst] at h1 h2 h3
    refine ⟨h1.trans herr, ?_, h2⟩
    intro a b v f
    rw [h3]
    simp [hnomove]

theorem downloadAndMove_fetch_error_witness :
    (downloadAndMove sampleCollaborators "badc0de" "https://example.com/foo.tgz" []
      "/plugins/download/foo" "/plugins/store/foo" freshFS).err =
      some (Error.New "checksum does not match") ∧
    (downloadAndMove sampleCollaborators "badc0de" "https://example.com/foo.tgz" []
      "/plugins/download/foo" "/plugins/store/foo" freshFS).fs "/plugins/store/foo/badc0de" =
      freshFS "/plugins/store/foo/badc0de" :=
  ⟨(downloadAndMove_fetch_error sampleCollaborators "badc0de" "https://example.com/foo.tgz" []
      "/plugins/download/foo" "/plugins/store/foo" freshFS
      (Error.New "checksum does not match") (by decide) (by decide)).1,
   (downloadAndMove_fetch_error sampleCollaborators "badc0de" "https://example.com/foo.tgz" []
      "/plugins/download/foo" "/plugins/store/foo" freshFS
      (Error.New "checksum does not match") (by decide) (by decide)).2.2.2.1
      (fun _ _ => rfl) (by decide) (by decide) "/plugins/store/foo/badc0de" (by decide)⟩

/-- When `downloadAndMove` returns and the deferred removal, if registered, did not fail,
no directory stands at the scratch path; if the scratch directory was created, nothing at
all is left at or beneath it. -/
theorem downloadAndMove_scratch (c : Collaborators) (version uri : String)
    (fos : List FileOperation) (dl inst : String) (fs : FS)
    (hdef : (downloadAndMove c version uri fos dl inst fs).deferredErr = none) :
    os.Stat (downloadAndMove c version uri fos dl inst fs).fs dl ≠ some FileKind.dir ∧
    ((os.MkdirAll fs dl).2 = none → ∀ q, isUnder dl q = true →
      (downloadAndMove c version uri fos dl inst fs).fs q = none) := by
  rcases hm : os.MkdirAll fs dl with ⟨fs1, _ | err⟩
  · have hne : dl ≠ "" := by
      intro e0
      rw [e0] at hm
      exact MkdirAll_empty fs (by rw [hm])
    have key : ∀ q, isUnder dl q = true →
        (downloadAndMove c version uri fos dl inst fs).fs q = none := by
      intro q hq
      rcases hf : fetchStep c version uri dl fs1 with ⟨call, fs2, _ | err2⟩
      · simp only [downloadAndMove, hm, hf] at hdef ⊢
        exact RemoveAll_under _ _ dl q hne hdef hq
      · simp only [downloadAndMove, hm, hf] at hdef ⊢
        exact RemoveAll_under _ _ dl q hne hdef hq
    refine ⟨?_, fun _ => key⟩
    unfold os.Stat
    rw [if_neg hne, key dl (isUnder_self dl)]
    simp
  · refine ⟨?_, fun h => by simp at h⟩
    have h := MkdirAll_failed fs dl (by rw [hm]; simp)
    rw [hm] at h
    simpa [downloadAndMove, hm] using h

/-- C5, as stated, fails: `Install` can reach the download step and return with the scratch
directory still in place. With the working directory `.` as scratch path the deferred
`RemoveAll` is refused, its error is dropped and `Install` returns `nil`. -/
theorem Install_scratch_left_counterexample :
    ¬ ∀ (c : Collaborators) (p : KrewPaths) (plugin : Plugin) (forceHEAD : Bool) (fs : FS)
      (v version uri : String) (fos : List FileOperation),
      c.findInstalledPluginVersion fs p.Install plugin.Name = (v, false, none) →
      c.getDownloadTarget plugin forceHEAD = (version, uri, fos, none) →
      os.Stat (Install c p plugin forceHEAD fs).fs (filepath.Join [p.Download, plugin.Name]) ≠
        some FileKind.dir := by
  intro h
  have h1 := h sampleCollaborators dotPaths namelessPlugin false dotFS "" "deadbeef"
    "https://example.com/x.tgz" [] (by decide) (by decide)
  revert h1
  decide

/-- C5 (amended): whenever `Install` reaches the download step and the deferred
`os.RemoveAll` of the scratch path, whose error `Install` drops, did not fail, no directory
stands at the scratch path `download/<pluginName>` when `Install` returns, whether the
creation of the scratch directory, the fetch or the promotion succeeded or failed; and once
the scratch directory was created, nothing at all is left at or beneath that path. -/
theorem Install_scratch_removed (c : Collaborators) (p : KrewPaths) (plugin : Plugin)
    (forceHEAD : Bool) (fs : FS) (v version uri : String) (fos : List FileOperation)
    (hfind : c.findInstalledPluginVersion fs p.Install plugin.Name = (v, false, none))
    (htarget : c.getDownloadTarget plugin forceHEAD = (version, uri, fos, none))
    (hdef : (Install c p plugin forceHEAD fs).deferredErr = none) :
    os.Stat (Install c p plugin forceHEAD fs).fs (filepath.Join [p.Download, plugin.Name]) ≠
      some FileKind.dir ∧
    ((os.MkdirAll fs (filepath.Join [p.Download, plugin.Name])).2 = none →
      ∀ q, isUnder (filepath.Join [p.Download, plugin.Name]) q = true →
        (Install c p plugin forceHEAD fs).fs q = none) := by
  obtain ⟨_, h2, _⟩ := Install_reaches_download c p plugin forceHEAD fs v version uri fos
    hfind htarget
  have h4 : (Install c p plugin forceHEAD fs).deferredErr =
      (downloadAndMove c version uri fos (filepath.Join [p.Download, plugin.Name])
        (filepath.Join [p.Install, plugin.Name]) fs).deferredErr := by
    simp [Install, hfind, htarget]
  rw [h4] at hdef
  rw [h2]
  exact downloadAndMove_scratch c version uri fos _ _ fs hdef

theorem Install_scratch_removed_witness :
    os.Stat (Install sampleCollaborators samplePaths samplePlugin false freshFS).fs
        "/plugins/download/foo" ≠ some FileKind.dir ∧
    (Install sampleCollaborators samplePaths samplePlugin false freshFS).fs
        "/plugins/download/foo/payload" = none ∧
    (Install sampleCollaborators samplePaths samplePlugin false freshFS).err = none :=
  ⟨(Install_scratch_removed sampleCollaborators samplePaths samplePlugin false freshFS ""
      "deadbeef" "https://example.com/foo.tgz" [{ From := "foo", To := "foo" }]
      (by decide) (by decide) (by decide)).1,
   (Install_scratch_removed sampleCollaborators samplePaths samplePlugin false freshFS ""
      "deadbeef" "https://example.com/foo.tgz" [{ From := "foo", To := "foo" }]
      (by decide) (by decide) (by decide)).2 (by decide) "/plugins/download/foo/payload"
      (by decide),
   by decide⟩

/-- The deferred removal can also fail on an ordinary scratch path, when the operating
system refuses it: `Install` still returns `nil` and the payload is left behind. -/
theorem Install_scratch_busy :
    (Install busyCollaborators samplePaths samplePlugin false freshFS).err = none ∧
    (Install busyCollaborators samplePaths samplePlugin false freshFS).deferredErr =
      some (Error.New "unlinkat: device or resource busy") ∧
    os.Stat (Install busyCollaborators samplePaths samplePlugin false freshFS).fs
      "/plugins/download/foo" = some FileKind.dir ∧
    (Install busyCollaborators samplePaths samplePlugin false freshFS).fs
      "/plugins/download/foo/payload" = some FileKind.file := by
  decide

/-- C6: once the scratch directory is created, `downloadAndMove` picks its fetch by
comparing the version with `"HEAD"` exactly. For `"HEAD"` it calls `GetInsecure`, never
`GetWithSha256`, and any promotion is made under version `"HEAD"` (one is made when the
fetch succeeds). For every other version (`"HEAD-OLD"`, the empty string and `"head"`
among them) it calls `GetWithSha256` with that version as the expected checksum and never
`GetInsecure`. -/
theorem downloadAndMove_fetch_choice (c : Collaborators) (version uri : String)
    (fos : List FileOperation) (dl inst : String) (fs : FS)
    (hmk : (os.MkdirAll fs dl).2 = none) :
    ((∃ u d, Call.GetInsecure u d ∈ (downloadAndMove c version uri fos dl inst fs).calls) ↔
      version = "HEAD") ∧
    (version = "HEAD" →
      Call.GetInsecure uri dl ∈ (downloadAndMove c version uri fos dl inst fs).calls ∧
      (∀ u d s, Call.GetWithSha256 u d s ∉
        (downloadAndMove c version uri fos dl inst fs).calls) ∧
      (∀ a b v f, Call.moveToInstallAtomic a b v f ∈
        (downloadAndMove c version uri fos dl inst fs).calls → v = "HEAD") ∧
      ((c.GetInsecure (os.MkdirAll fs dl).1 uri dl).2 = none →
        Call.moveToInstallAtomic dl inst "HEAD" fos ∈
          (downloadAndMove c version uri fos dl inst fs).calls)) ∧
    (version ≠ "HEAD" →
      Call.GetWithSha256 uri dl version ∈
        (downloadAndMove c version uri fos dl inst fs).calls ∧
      (∀ u d s, Call.GetWithSha256 u d s ∈
        (downloadAndMove c version uri fos dl inst fs).calls → s = version) ∧
      (∀ u d, Call.GetInsecure u d ∉ (downloadAndMove c version uri fos dl inst fs).calls)) ∧
    headOldVersion ≠ headVersion ∧ "" ≠ headVersion ∧ "head" ≠ headVersion := by
  rcases hm : os.MkdirAll fs dl with ⟨fs1, _ | err⟩
  · by_cases hv : version = "HEAD"
    · subst hv
      rcases hg : c.GetInsecure fs1 uri dl with ⟨fs2, _ | err2⟩
      · simp only [downloadAndMove, hm, fetchStep, headVersion, hg, headOldVersion]
        simp
        intro a b v f _ _ hv _
        exact hv
      · simp [downloadAndMove, hm, fetchStep, headVersion, hg, headOldVersion]
    · rcases hg : c.GetWithSha256 fs1 uri dl version with ⟨fs2, _ | err2⟩
      · simp [downloadAndMove, hm, fetchStep, headVersion, hg, headOldVersion, hv]
      · simp [downloadAndMove, hm, fetchStep, headVersion, hg, headOldVersion, hv]
  · rw [hm] at hmk; simp at hmk

theorem downloadAndMove_fetch_choice_witness :
    Call.GetInsecure "https://example.com/foo.tgz" "/plugins/download/foo" ∈
      (downloadAndMove sampleCollaborators "HEAD" "https://example.com/foo.tgz" []
        "/plugins/download/foo" "/plugins/store/foo" freshFS).calls ∧
    Call.moveToInstallAtomic "/plugins/download/foo" "/plugins/store/foo" "HEAD" [] ∈
      (downloadAndMove sampleCollaborators "HEAD" "https://example.com/foo.tgz" []
        "/plugins/download/foo" "/plugins/store/foo" freshFS).calls :=
  ⟨((downloadAndMove_fetch_choice sampleCollaborators "HEAD" "https://example.com/foo.tgz" []
      "/plugins/download/foo" "/plugins/store/foo" freshFS (by decide)).2.1 rfl).1,
   ((downloadAndMove_fetch_choice sampleCollaborators "HEAD" "https://example.com/foo.tgz" []
      "/plugins/download/foo" "/plugins/store/foo" freshFS (by decide)).2.1 rfl).2.2.2
      (by decide)⟩

/-! ## `Remove` of an installed plugin -/

/-- C7, as stated, fails: a successful `Remove` of an installed plugin can leave the
plugin's bin entry in place. -/
theorem Remove_keeps_bin_entry :
    ¬ ∀ (c : Collaborators) (p : KrewPaths) (n : String) (fs : FS) (v : String),
      n ≠ krewPluginName →
      c.findInstalledPluginVersion fs p.Install n = (v, true, none) →
      (Remove c p n fs).err = none →
      os.Stat (Remove c p n fs).fs (filepath.Join [p.Install, n]) = none ∧
      os.Stat (Remove c p n fs).fs (binEntry p n) = none := by
  intro h
  have h1 := (h sampleCollaborators samplePaths "foo" installedFS "deadbeef" (by decide)
    (by decide) (by decide)).2
  revert h1
  decide

/-- C7 (amended): for every plugin name other than the reserved `krew` with a version
installed, `Remove` makes a single `RemoveAll` of `install/<name>` and returns its result.
When `Remove` succeeds, that path does not exist afterwards and nothing is left beneath it.
In every case each path outside that subtree, the plugin's bin entry among them, is as it
was before. -/
theorem Remove_installed (c : Collaborators) (p : KrewPaths) (n : String) (fs : FS)
    (v : String) (hn : n ≠ krewPluginName)
    (h : c.findInstalledPluginVersion fs p.Install n = (v, true, none))
    (hok : (Remove c p n fs).err = none) :
    os.Stat (Remove c p n fs).fs (filepath.Join [p.Install, n]) = none ∧
    (filepath.Join [p.Install, n] ≠ "" →
      ∀ q, isUnder (filepath.Join [p.Install, n]) q = true → (Remove c p n fs).fs q = none) ∧
    (∀ q, isUnder (filepath.Join [p.Install, n]) q = false →
      (Remove c p n fs).fs q = fs q) ∧
    (Remove c p n fs).calls =
      [Call.findInstalledPluginVersion p.Install n,
       Call.RemoveAll (filepath.Join [p.Install, n])] := by
  have hfs : (Remove c p n fs).fs =
      (os.RemoveAll c.removeFault fs (filepath.Join [p.Install, n])).1 := by
    simp [Remove, hn, h]
  have herr : (os.RemoveAll c.removeFault fs (filepath.Join [p.Install, n])).2 = none := by
    simpa [Remove, hn, h] using hok
  refine ⟨?_, ?_, ?_, ?_⟩
  · rw [hfs]
    unfold os.Stat
    split
    · rfl
    · rename_i hne
      exact RemoveAll_under _ fs _ _ hne herr (isUnder_self _)
  · intro hne q hq
    rw [hfs]
    exact RemoveAll_under _ fs _ _ hne herr hq
  · intro q hq
    rw [hfs]
    exact RemoveAll_frame _ fs _ _ hq
  · simp [Remove, hn, h]

theorem Remove_installed_witness :
    (Remove sampleCollaborators samplePaths "foo" installedFS).err = none ∧
    os.Stat (Remove sampleCollaborators samplePaths "foo" installedFS).fs
      "/plugins/store/foo" = none ∧
    (Remove sampleCollaborators samplePaths "foo" installedFS).fs "/plugins/bin/foo" =
      some FileKind.file :=
  ⟨by decide,
   (Remove_installed sampleCollaborators samplePaths "foo" installedFS "deadbeef"
      (by decide) (by decide) (by decide)).1,
   ((Remove_installed sampleCollaborators samplePaths "foo" installedFS "deadbeef"
      (by decide) (by decide) (by decide)).2.2.1 "/plugins/bin/foo" (by decide)).trans
      (by decide)⟩

/-- A `Remove` that the operating system refuses is not a success: with the working
directory `.` as install path of the empty name, `Remove` returns the `RemoveAll` error and
removes nothing. -/
theorem Remove_refused_on_dot :
    (Remove { sampleCollaborators with
              findInstalledPluginVersion := fun _ _ _ => ("deadbeef", true, none) }
        { dotPaths with Install := "." } "" dotFS).err =
      some (Error.New "RemoveAll: invalid argument") ∧
    os.Stat (Remove { sampleCollaborators with
              findInstalledPluginVersion := fun _ _ _ => ("deadbeef", true, none) }
        { dotPaths with Install := "." } "" dotFS).fs "." = some FileKind.dir := by
  decide

/-! ## Plugin-mode detection -/

theorem cutAssignment_append (n v : List Char) (h : '=' ∉ n) :
    cutAssignment (n ++ '=' :: v) = (n, some v) := by
  induction n with
  | nil => simp [cutAssignment]
  | cons c cs ih =>
    have hc : c ≠ '=' := fun e => h (e ▸ List.mem_cons_self _ _)
    have hcs : '=' ∉ cs := fun m => h (List.mem_cons_of_mem _ m)
    simp [cutAssignment, hc, ih hcs]

theorem cutAssignment_some (e v : List Char) (h : (cutAssignment e).2 = some v) :
    e = (cutAssignment e).1 ++ '=' :: v := by
  induction e with
  | nil => simp [cutAssignment] at h
  | cons c cs ih =>
    by_cases hc : c = '='
    · simp [cutAssignment, hc] at h ⊢
      exact h
    · simp only [cutAssignment, hc, if_false] at h ⊢
      rw [List.cons_append, ← ih h]

theorem cutAssignment_isSome (e : List Char) (h : '=' ∈ e) :
    ∃ v, (cutAssignment e).2 = some v := by
  induction e with
  | nil => simp at h
  | cons c cs ih =>
    by_cases hc : c = '='
    · exact ⟨cs, by simp [cutAssignment, hc]⟩
    · have hm : '=' ∈ cs := by
        rcases List.mem_cons.mp h with h1 | h1
        · exact absurd h1.symm hc
        · exact h1
      obtain ⟨v, hv⟩ := ih hm
      exact ⟨v, by simp [cutAssignment, hc, hv]⟩

/-- C9: on a list of `NAME=value` strings, `IsPlugin` is true exactly when some entry is
`KUBECTL_PLUGINS_DESCRIPTOR_NAME=value` for some value, the empty one included; the entry
with the empty value alone gives true, and a list without the name gives false. -/
theorem IsPlugin_iff_marker_bound (environ : List String)
    (h : ∀ e ∈ environ, '=' ∈ e.data) :
    (IsPlugin environ = true ↔
      ∃ value : String, ("KUBECTL_PLUGINS_DESCRIPTOR_NAME" ++ "=" ++ value) ∈ environ) ∧
    IsPlugin ["KUBECTL_PLUGINS_DESCRIPTOR_NAME="] = true ∧
    ((∀ value : String, ("KUBECTL_PLUGINS_DESCRIPTOR_NAME" ++ "=" ++ value) ∉ environ) →
      IsPlugin environ = false) := by
  have key : IsPlugin environ = true ↔
      ∃ value : String, ("KUBECTL_PLUGINS_DESCRIPTOR_NAME" ++ "=" ++ value) ∈ environ := by
    unfold IsPlugin parseEnvs
    simp only [List.map_map, List.contains_iff_exists_mem_beq, List.mem_map,
      Function.comp_apply, beq_iff_eq, exists_exists_and_eq_and]
    constructor
    · rintro ⟨e, he, hname⟩
      obtain ⟨v, hv⟩ := cutAssignment_isSome e.data (h e he)
      have hd := cutAssignment_some e.data v hv
      refine ⟨String.mk v, ?_⟩
      have : "KUBECTL_PLUGINS_DESCRIPTOR_NAME" ++ "=" ++ String.mk v = e := by
        apply String.ext
        rw [String.data_append, String.data_append, hd]
        have h1 : (cutAssignment e.data).1 = pluginMarker.data := by
          have := congrArg String.data hname
          simpa using this.symm
        rw [← hd, hd, h1]
        simp [pluginMarker]
      rw [this]
      exact he
    · rintro ⟨value, hv⟩
      refine ⟨_, hv, ?_⟩
      have hcut : cutAssignment ("KUBECTL_PLUGINS_DESCRIPTOR_NAME" ++ "=" ++ value).data =
          (pluginMarker.data, some value.data) := by
        rw [String.data_append, String.data_append]
        have : ("KUBECTL_PLUGINS_DESCRIPTOR_NAME" : String).data ++ ("=" : String).data
            ++ value.data = pluginMarker.data ++ '=' :: value.data := by
          simp [pluginMarker]
        rw [this]
        exact cutAssignment_append _ _ (by decide)
      rw [hcut]
  refine ⟨key, by decide, ?_⟩
  intro hno
  cases hp : IsPlugin environ with
  | false => rfl
  | true =>
    obtain ⟨value, hv⟩ := key.mp hp
    exact absurd hv (hno value)

theorem IsPlugin_iff_marker_bound_witness :
    IsPlugin ["TERM=A", "KUBECTL_PLUGINS_DESCRIPTOR_NAME=", "CC=en"] = true :=
  (IsPlugin_iff_marker_bound ["TERM=A", "KUBECTL_PLUGINS_DESCRIPTOR_NAME=", "CC=en"]
    (by decide)).1.mpr ⟨"", by decide⟩

/-- The cases of `TestIsPlugin` and `Test_parseEnvs`. -/
theorem TestIsPlugin_cases :
    IsPlugin ["KUBECTL_PLUGINS_DESCRIPTOR_NAME=abc"] = true ∧
    IsPlugin ["KUBECTL_PLUGINS_DESCRIPTOR_NAME="] = true ∧
    IsPlugin ["XXXXXXXX=abc"] = false ∧
    parseEnvs ["TERM=A", "CC=en"] = [("TERM", "A"), ("CC", "en")] ∧
    parseEnvs ["TERM="] = [("TERM", "")] ∧
    parseEnvs ["FOO=A=B"] = [("FOO", "A=B")] := by
  decide

/-! ## Self-location -/

/-- The cases of `TestGetExecutedVersion`. -/
theorem TestGetExecutedVersion_cases :
    GetExecutedVersion samplePaths.Install "/plugins/store/krew/deadbeef/krew.exe" =
      ("deadbeef", true, none) ∧
    GetExecutedVersion samplePaths.Install "/plugins/store/NOTKREW/deadbeef/krew.exe" =
      ("", false, none) ∧
    GetExecutedVersion samplePaths.Install "/plugins/store/krew/deadbeef/foo/krew.exe" =
      ("deadbeef", true, none) ∧
    GetExecutedVersion samplePaths.Install "/krew.exe" = ("", false, none) := by
  decide

/-- C10: `GetExecutedVersion` returns `(v, true)` without error exactly when the normalised
executable path is the install directory followed by the element `krew`, the element `v`
and one or more further elements; for every other path it returns the empty string and
`false` without error. -/
theorem GetExecutedVersion_iff (installPath executionPath : String) :
    (∀ v, GetExecutedVersion installPath executionPath = (v, true, none) ↔
      isAbs installPath = isAbs executionPath ∧
      ∃ rest, rest ≠ [] ∧
        segments executionPath = segments installPath ++ "krew" :: v :: rest) ∧
    ((¬ (isAbs installPath = isAbs executionPath ∧
        ∃ v rest, rest ≠ [] ∧
          segments executionPath = segments installPath ++ "krew" :: v :: rest)) →
      GetExecutedVersion installPath executionPath = ("", false, none)) := by
  unfold GetExecutedVersion
  simp only
  generalize segments executionPath = se
  generalize segments installPath = si
  have hassoc : ∀ v rest, si ++ "krew" :: v :: rest = (si ++ [krewPluginName]) ++ v :: rest := by
    intro v rest
    simp [krewPluginName]
  by_cases hc : isAbs installPath = isAbs executionPath ∧
      (si ++ [krewPluginName]).isPrefixOf se = true
  · rw [if_pos hc]
    obtain ⟨habs, hpre⟩ := hc
    rw [ List.isPrefixOf_iff_prefix] at hpre
    obtain ⟨t, ht⟩ := hpre
    subst ht
    rw [List.drop_left' rfl]
    simp only [hassoc, List.append_cancel_left_eq, habs, true_and]
    match t with
    | [] => simp
    | [x] => simp
    | x :: y :: r =>
      simp only [Prod.mk.injEq, and_true, List.cons.injEq]
      constructor
      · intro v
        constructor
        · intro h; exact ⟨y :: r, by simp, h, rfl⟩
        · rintro ⟨rest, _, h, _⟩; exact h
      · intro h
        exact absurd ⟨x, y :: r, by simp, rfl, rfl⟩ h
  · rw [if_neg hc]
    refine ⟨?_, fun _ => rfl⟩
    intro v
    constructor
    · intro h; simp at h
    · rintro ⟨habs, rest, _, h⟩
      exfalso
      apply hc
      refine ⟨habs, ?_⟩
      rw [ List.isPrefixOf_iff_prefix, h, hassoc]
      exact List.prefix_append _ _

/-! ## `limitString` -/

theorem limitString_sanity :
    limitString (utf8Bytes "abcdefghij") 7 = utf8Bytes "abcd..." ∧
    limitString (utf8Bytes "abcdefghij") 10 = utf8Bytes "abcdefghij" ∧
    limitString (utf8Bytes "abcdefghij") 3 = utf8Bytes "abcdefghij" ∧
    limitString (utf8Bytes "abcdefghij") (-1) = utf8Bytes "abcdefghij" ∧
    (utf8Bytes "é").length = 2 := by
  decide

/-- Length of a cut string: the kept bytes and the three dots make `length` bytes. -/
theorem limitString_cut_length (s : GoString) (length : Int)
    (h1 : (s.length : Int) > length) (h2 : length > 3) :
    ((s.take (length - 3).toNat ++ ellipsis).length : Int) = length := by
  have h3 : (ellipsis.length : Int) = 3 := rfl
  have h4 : (length - 3).toNat ≤ s.length := by omega
  rw [List.length_append, List.length_take, Nat.min_eq_left h4, Nat.cast_add, h3]
  omega

/-- C11: for every string and every `length > 3`, `limitString` returns at most `length`
bytes: the string itself when it has at most `length` bytes, and otherwise its first
`length-3` bytes followed by `"..."`, which makes exactly `length` bytes. For every
`length ≤ 3` it returns the string unchanged, however long. Every description cell of
`search` (cut at 50) has at most 50 bytes. -/
theorem limitString_bound (s : GoString) (length : Int) :
    (length > 3 →
      ((limitString s length).length : Int) ≤ length ∧
      ((s.length : Int) ≤ length → limitString s length = s) ∧
      ((s.length : Int) > length →
        limitString s length = s.take (length - 3).toNat ++ ellipsis ∧
        (s.take (length - 3).toNat).length = (length - 3).toNat ∧
        ((limitString s length).length : Int) = length)) ∧
    (length ≤ 3 → limitString s length = s) ∧
    (∀ plugin : Plugin, (descriptionCell plugin).length ≤ 50) := by
  have hbound : ∀ (t : GoString) (n : Int), n > 3 →
      ((limitString t n).length : Int) ≤ n := by
    intro t n hn
    unfold limitString
    split
    · rename_i hc
      exact le_of_eq (limitString_cut_length t n hc.1 hc.2)
    · rename_i hc
      have : ¬ (t.length : Int) > n := fun h => hc ⟨h, hn⟩
      omega
  refine ⟨fun h3 => ⟨hbound s length h3, ?_, ?_⟩, ?_, ?_⟩
  · intro hle
    unfold limitString
    rw [if_neg]
    intro hc
    omega
  · intro hgt
    have hval : limitString s length = s.take (length - 3).toNat ++ ellipsis := by
      unfold limitString
      rw [if_pos ⟨hgt, h3⟩]
    refine ⟨hval, ?_, ?_⟩
    · rw [List.length_take]
      omega
    · rw [hval]
      exact limitString_cut_length s length hgt h3
  · intro hle
    unfold limitString
    rw [if_neg]
    intro hc
    omega
  · intro plugin
    have h := hbound (utf8Bytes plugin.ShortDescription) 50 (by decide)
    unfold descriptionCell
    exact_mod_cast h

theorem limitString_bound_witness :
    limitString (utf8Bytes "abcdefghij") 7 = utf8Bytes "abcd..." ∧
    ((limitString (utf8Bytes "abcdefghij") 7).length : Int) = 7 :=
  ⟨(((limitString_bound (utf8Bytes "abcdefghij") 7).1 (by decide)).2.2 (by decide)).1.trans
      (by decide),
   (((limitString_bound (utf8Bytes "abcdefghij") 7).1 (by decide)).2.2 (by decide)).2.2⟩

end Krew
